import Mathlib

/-!
Verification of the PII analyzer's adaptive parallel work-execution core.

Shallow embedding of `src/core/worker_management.py` (the adaptive scheduler
`process_files_parallel`, the control law `calculate_optimal_workers`) and of
`src/api/analysis_service.py` (the `AnalysisService` lifecycle controller).

Machine floats of the source are embedded as exact rationals (`ℚ`); the
constants involved (0.5, 0.75, 0.8, 0.9, 0.7, 0.6 and the load thresholds)
are such that the float computations of the source agree with exact
arithmetic on all realistic CPU/memory values.  Wall-clock time is abstracted
into oracles indexed by a logical clock, and worker outcomes into an oracle
`Nat → Outcome`.  The scheduler's event trace is stored most-recent-first.
-/

set_option maxRecDepth 100000

namespace PII

/-! ## Constants of `worker_management.py` -/

def MAX_BATCH_SIZE : Nat := 50
def MIN_BATCH_SIZE : Nat := 20
def WORKER_STEP_SIZE : Nat := 10
def WORKER_EMERGENCY_REDUCTION : Nat := 20
def BATCH_STEP_SIZE : Nat := 10
def MAX_LOAD_FACTOR : ℚ := 3/2
def CRITICAL_LOAD_FACTOR : ℚ := 2
def WORKER_TIMEOUT_SECONDS : Nat := 180
def MAX_CONSECUTIVE_ERRORS : Nat := 50
def TARGET_CPU_UTILIZATION : ℚ := 70
def MIN_CPU_UTILIZATION : ℚ := 60
def MAX_CPU_UTILIZATION : ℚ := 80

/-! ## System utilization snapshots (`get_system_utilization`) -/

/-- A snapshot of the metrics the scheduler reads from `psutil`:
CPU percent, memory percent, and the 1-minute load average divided by the
logical CPU count. -/
structure Util where
  cpu : ℚ
  mem : ℚ
  loadFactor : ℚ
deriving DecidableEq, Repr

/-! ## `calculate_optimal_workers` -/

/-- The load-adjustment branch of `calculate_optimal_workers`
(`worker_management.py` lines 154-194): called with the current worker count
and a utilization snapshot.  Python's `//` on non-negative ints is `Nat.div`;
the subtractions never truncate because the reduction is at most `w`. -/
def adjustWorkers (w : Nat) (u : Util) : Nat :=
  if CRITICAL_LOAD_FACTOR < u.loadFactor then
    max 8 (w - min WORKER_EMERGENCY_REDUCTION (w / 3))
  else if MAX_LOAD_FACTOR < u.loadFactor then
    max 8 (w - min (WORKER_STEP_SIZE * 2) (w / 5))
  else if u.cpu < MIN_CPU_UTILIZATION ∧ u.mem < 80 ∧ u.loadFactor < 8/10 then
    w + WORKER_STEP_SIZE
  else if MAX_CPU_UTILIZATION < u.cpu ∨ 90 < u.mem then
    max 8 (w - WORKER_STEP_SIZE)
  else
    w

/-- The initial-sizing branch of `calculate_optimal_workers`
(`worker_management.py` lines 196-242): worker count from the logical CPU
count and total memory in GB.  Python's `int(x)` on the non-negative floats
involved is the floor. -/
def calculateOptimalWorkersAuto (cpuCount : Nat) (memoryGb : ℚ) : Nat :=
  if 96 ≤ cpuCount then
    let baseWorkers := cpuCount / 2
    let maxByMemory := (⌊memoryGb * (7/10)⌋).toNat
    min (min baseWorkers maxByMemory) 64
  else if 32 ≤ cpuCount then
    let baseWorkers := min 24 (cpuCount * 3 / 4)
    let maxByMemory := (⌊memoryGb * (3/5)⌋).toNat
    min baseWorkers maxByMemory
  else if 8 ≤ cpuCount then
    let baseWorkers := max 4 (cpuCount * 4 / 5)
    let maxByMemory := (⌊memoryGb * (3/5)⌋).toNat
    min baseWorkers maxByMemory
  else
    let baseWorkers := max 2 (cpuCount * 9 / 10)
    let maxByMemory := (⌊memoryGb * (3/5)⌋).toNat
    min baseWorkers maxByMemory

/-- `calculate_optimal_workers()` with no current workers: `some (C, M)` is a
successful `psutil` sample, `none` is the exception path (lines 244-247),
which falls back to 16. -/
def calculateOptimalWorkersInit (sys : Option (Nat × ℚ)) : Nat :=
  match sys with
  | none => 16
  | some (c, m) => calculateOptimalWorkersAuto c m

/-- The initial sizing rule exactly as the specification words it, with real
(here rational) floors. -/
def specInitialWorkers (c : Nat) (m : ℚ) : Nat :=
  if 96 ≤ c then
    min (min ⌊(1/2 : ℚ) * c⌋₊ ⌊(7/10 : ℚ) * m⌋₊) 64
  else if 32 ≤ c then
    min (min 24 ⌊(3/4 : ℚ) * c⌋₊) ⌊(3/5 : ℚ) * m⌋₊
  else if 8 ≤ c then
    min (max 4 ⌊(4/5 : ℚ) * c⌋₊) ⌊(3/5 : ℚ) * m⌋₊
  else
    min (max 2 ⌊(9/10 : ℚ) * c⌋₊) ⌊(3/5 : ℚ) * m⌋₊

/-! ## File records and the store's conditional transitions -/

/-- Status of a `files` row. -/
inductive FStatus
  | pending
  | processing
  | completed
  | error
deriving DecidableEq, Repr

/-- A `files` row, as far as the scheduler touches it. -/
structure FileRec where
  fid : Nat
  status : FStatus
  errorMsg : Option String
deriving DecidableEq, Repr

/-- Conditional status transition: updates the rows with id `fid` currently in
status `src` (the store's `mark_file_*` primitives). -/
def markFile (files : List FileRec) (fid : Nat) (src dst : FStatus)
    (msg : Option String) : List FileRec :=
  files.map fun f =>
    if f.fid == fid && f.status == src then
      { f with status := dst, errorMsg := msg }
    else f

def markFileProcessing (files : List FileRec) (fid : Nat) : List FileRec :=
  markFile files fid .pending .processing none

/-- `mark_file_processing`'s return value: true iff a `pending` row with this
id exists (the claim succeeds). -/
def canMarkProcessing (files : List FileRec) (fid : Nat) : Bool :=
  files.any fun f => f.fid == fid && f.status == .pending

def markFileCompleted (files : List FileRec) (fid : Nat) : List FileRec :=
  markFile files fid .processing .completed none

def markFileError (files : List FileRec) (fid : Nat) (msg : String) : List FileRec :=
  markFile files fid .processing .error (some msg)

/-- `get_pending_files(job_id, limit)`: ids of up to `limit` pending rows in
store order. -/
def getPendingFiles (files : List FileRec) (limit : Nat) : List Nat :=
  ((files.filter fun f => f.status == .pending).take limit).map (·.fid)

def countPending (files : List FileRec) : Nat :=
  (files.filter fun f => f.status == .pending).length

def fileStatus (files : List FileRec) (fid : Nat) : Option FStatus :=
  (files.find? fun f => f.fid == fid).map (·.status)

/-! ## The scheduler (`process_files_parallel`) -/

/-- Observable events of a scheduler run, stored most-recent-first:
`batchStart c sz` — a batch begun after the stop check at clock `c` with the
current batch size `sz`; `claim f c` — file `f` marked `pending → processing`
during the batch whose stop check was at clock `c`; `drained f` — the drain
loop handled file `f`'s future; `progress t` — a progress event of type `t`
sent to the callback; `circuitTrip` — the consecutive-error threshold check
fired. -/
inductive SchedEvent
  | batchStart (clock : Nat) (size : Nat)
  | claim (fid : Nat) (batchClock : Nat)
  | drained (fid : Nat)
  | progress (etype : String)
  | circuitTrip
deriving DecidableEq, Repr

/-- Outcome of one submitted future, as the drain loop's `try/except`
distinguishes them: a returned result dict (`success` flag and error
message), a `concurrent.futures.TimeoutError`, or any other exception.
Under the real `as_completed` semantics the `timeout` case is unreachable
(see `drainBatchTimed`); it is embedded because the handler is written in
the source, and no oracle in this development ever produces it. -/
inductive Outcome
  | res (success : Bool) (errMsg : String)
  | timeout
  | exn (msg : String)
deriving DecidableEq, Repr

/-- State threaded through one batch's drain loop. -/
structure DrainSt where
  files : List FileRec
  consecutive : Nat
  processed : Nat
  errors : Nat
  stopRequested : Bool
  clock : Nat
  trace : List SchedEvent
deriving Repr

/-- One iteration of the drain loop (`worker_management.py` lines 425-532):
stop-signal check, then the `try/except` handling of the completed future.
The consecutive-error threshold is only checked on the result path (lines
501-504), not in the timeout or exception handlers; the exception handler
performs no store write.  The `.timeout` branch transcribes the
`except TimeoutError` handler as written, although that handler is dead
code — `future.result` on a future yielded by `as_completed` cannot raise
`TimeoutError` (see `drainBatchTimed`) — and no oracle here produces it. -/
def drainOne (oc : Nat → Outcome) (stopSeq : Nat → Bool)
    (st : DrainSt) (fid : Nat) : DrainSt :=
  let stopReq := st.stopRequested || stopSeq st.clock
  let clock := st.clock + 1
  let tr0 := SchedEvent.drained fid :: st.trace
  match oc fid with
  | .res true _ =>
      let consecutive := 0
      let trip := decide (MAX_CONSECUTIVE_ERRORS ≤ consecutive)
      { files := markFileCompleted st.files fid
        consecutive
        processed := st.processed + 1
        errors := st.errors
        stopRequested := stopReq || trip
        clock
        trace :=
          let tr1 := SchedEvent.progress "file_completed" :: tr0
          if trip then SchedEvent.circuitTrip :: tr1 else tr1 }
  | .res false m =>
      let consecutive := st.consecutive + 1
      let trip := decide (MAX_CONSECUTIVE_ERRORS ≤ consecutive)
      { files := markFileError st.files fid m
        consecutive
        processed := st.processed
        errors := st.errors + 1
        stopRequested := stopReq || trip
        clock
        trace :=
          let tr1 := SchedEvent.progress "file_error" :: tr0
          if trip then SchedEvent.circuitTrip :: tr1 else tr1 }
  | .timeout =>
      { files :=
          if fid == 0 then st.files
          else markFileError st.files fid
            ("Processing timeout (" ++ toString WORKER_TIMEOUT_SECONDS ++ "s)")
        consecutive := st.consecutive + 1
        processed := st.processed
        errors := st.errors + 1
        stopRequested := stopReq
        clock
        trace := tr0 }
  | .exn _ =>
      { files := st.files
        consecutive := st.consecutive + 1
        processed := st.processed
        errors := st.errors + 1
        stopRequested := stopReq
        clock
        trace := SchedEvent.progress "file_error" :: tr0 }

/-- The events one drain iteration prepends to the trace, by outcome. -/
def drainNewEvents (oc : Nat → Outcome) (consecutive : Nat) (fid : Nat) :
    List SchedEvent :=
  match oc fid with
  | .res true _ => [SchedEvent.progress "file_completed", SchedEvent.drained fid]
  | .res false _ =>
      if MAX_CONSECUTIVE_ERRORS ≤ consecutive + 1 then
        [SchedEvent.circuitTrip, SchedEvent.progress "file_error", SchedEvent.drained fid]
      else
        [SchedEvent.progress "file_error", SchedEvent.drained fid]
  | .timeout => [SchedEvent.drained fid]
  | .exn _ => [SchedEvent.progress "file_error", SchedEvent.drained fid]

/-- State threaded through the scheduler's batch loop. -/
structure SchedSt where
  files : List FileRec
  batchSize : Nat
  workers : Nat
  processed : Nat
  errors : Nat
  clock : Nat
  trace : List SchedEvent
  jobStatus : String
  retStatus : Option String
deriving Repr

/-- Exit of the batch loop (lines 567-581): write the job status and return
the run's `status` field; `filesRemaining` is the loop's `files_remaining`
flag at exit. -/
def finishRun (filesRemaining : Bool) (st : SchedSt) : SchedSt :=
  let s := if filesRemaining then "interrupted" else "completed"
  { st with jobStatus := s, retStatus := some s }

/-- The dynamic-scaling block (lines 326-374) applied to one utilization
snapshot: the critical-load clamp of the batch size, the worker adjustment,
and the batch-size adjustment. -/
def adaptScaling (st : SchedSt) (u : Util) : SchedSt :=
  let bs1 :=
    if CRITICAL_LOAD_FACTOR < u.loadFactor ∧ MIN_BATCH_SIZE < st.batchSize then
      MIN_BATCH_SIZE
    else st.batchSize
  let w := adjustWorkers st.workers u
  let bs2 :=
    if u.loadFactor < 8/10 ∧ u.cpu < MIN_CPU_UTILIZATION ∧ u.mem < 80 then
      min MAX_BATCH_SIZE (bs1 + BATCH_STEP_SIZE)
    else if MAX_LOAD_FACTOR < u.loadFactor ∨ MAX_CPU_UTILIZATION < u.cpu ∨ 90 < u.mem then
      max MIN_BATCH_SIZE (bs1 - BATCH_STEP_SIZE)
    else bs1
  { st with workers := w, batchSize := bs2 }

/-- One step of the submission phase (lines 392-414): attempt the claim; on
success mark the row processing and record the submission. -/
def submitStep (batchClock : Nat) (acc : SchedSt × List Nat) (fid : Nat) :
    SchedSt × List Nat :=
  if canMarkProcessing acc.1.files fid then
    ({ acc.1 with
        files := markFileProcessing acc.1.files fid
        trace := SchedEvent.claim fid batchClock :: acc.1.trace },
      acc.2 ++ [fid])
  else acc

/-- The submission phase over a claimed batch: returns the updated state and
the submitted ids. -/
def submitBatch (st : SchedSt) (batchClock : Nat) (fids : List Nat) :
    SchedSt × List Nat :=
  fids.foldl (submitStep batchClock) (st, [])

/-- One whole batch (lines 384-532): record the batch start, submit the
claimed ids, drain the futures.  Returns the updated scheduler state and the
`stop_requested` flag the drain ended with. -/
def runBatch (oc : Nat → Outcome) (stopSeq : Nat → Bool) (st2 : SchedSt)
    (batchClock : Nat) (fids : List Nat) : SchedSt × Bool :=
  let st3 : SchedSt :=
    { st2 with trace := SchedEvent.batchStart batchClock st2.batchSize :: st2.trace }
  let sub := submitBatch st3 batchClock fids
  let d0 : DrainSt :=
    { files := sub.1.files, consecutive := 0, processed := sub.1.processed,
      errors := sub.1.errors, stopRequested := false, clock := sub.1.clock,
      trace := sub.1.trace }
  let d := sub.2.foldl (drainOne oc stopSeq) d0
  ({ sub.1 with
      files := d.files, processed := d.processed,
      errors := d.errors, clock := d.clock, trace := d.trace },
    d.stopRequested)

/-- The batch loop of `process_files_parallel` (lines 319-555) with
`max_files = None` (its only caller passes none).  Oracles: `oc` gives each
file's future outcome, `stopSeq` the stop signal as seen at each check (the
checks are numbered by a logical clock), `scale` the utilization snapshot if
the 30 s scaling timer fired before iteration `i`, and `memAfter` the memory
percentage sampled after batch `i`.  `fuel` bounds the recursion; a run that
exhausts fuel returns with `retStatus = none`. -/
def runLoop (oc : Nat → Outcome) (stopSeq : Nat → Bool)
    (scale : Nat → Option Util) (memAfter : Nat → ℚ) :
    Nat → Nat → SchedSt → SchedSt
  | 0, _, st => st
  | fuel + 1, i, st =>
    if stopSeq st.clock then
      finishRun false { st with clock := st.clock + 1 }
    else
      let st1 : SchedSt := { st with clock := st.clock + 1 }
      let st2 :=
        match scale i with
        | none => st1
        | some u => adaptScaling st1 u
      if (getPendingFiles st2.files st2.batchSize).isEmpty then finishRun false st2
      else
        let rb := runBatch oc stopSeq st2 st.clock (getPendingFiles st2.files st2.batchSize)
        if rb.2 then finishRun false rb.1
        else
          let st6 :=
            if 90 < memAfter i then
              { rb.1 with batchSize := max MIN_BATCH_SIZE (rb.1.batchSize / 2) }
            else rb.1
          runLoop oc stopSeq scale memAfter fuel (i + 1) st6

/-- Entry point of `process_files_parallel` for a job whose rows are `files`,
with explicit `max_workers` and `batch_size`.  The job status starts at
`running` (written by the service before the call). -/
def processFilesParallel (oc : Nat → Outcome) (stopSeq : Nat → Bool)
    (scale : Nat → Option Util) (memAfter : Nat → ℚ)
    (files : List FileRec) (workers batchSize fuel : Nat) : SchedSt :=
  runLoop oc stopSeq scale memAfter fuel 0
    { files := files, batchSize := batchSize, workers := workers,
      processed := 0, errors := 0, clock := 0, trace := [],
      jobStatus := "running", retStatus := none }

/-! ## Event classification -/

/-- Events of the submission phase: batch starts and claims. -/
def isSubmissionEvent : SchedEvent → Bool
  | .batchStart _ _ => true
  | .claim _ _ => true
  | _ => false

def isProgressEvent : SchedEvent → Bool
  | .progress _ => true
  | _ => false

def isCompletedEvent : SchedEvent → Bool
  | .progress s => s == "file_completed"
  | _ => false

def isErrorEvent : SchedEvent → Bool
  | .progress s => s == "file_error"
  | _ => false

/-- A worker result dict with `success: True`. -/
def successOutcome : Outcome → Bool
  | .res true _ => true
  | _ => false

/-- A worker result dict with `success: False`, or a worker exception — the
outcomes whose drain handlers emit a `file_error` progress event. -/
def failureOutcome : Outcome → Bool
  | .res false _ => true
  | .exn _ => true
  | _ => false

def isDrainedSuccess (oc : Nat → Outcome) : SchedEvent → Bool
  | .drained f => successOutcome (oc f)
  | _ => false

def isDrainedFailure (oc : Nat → Outcome) : SchedEvent → Bool
  | .drained f => failureOutcome (oc f)
  | _ => false

/-! ## The drain loop with timing (`as_completed` semantics) -/

/-- A future as the drain loop sees it: the file id, the wall-clock seconds
its worker runs, and the result it returns. -/
structure TimedFuture where
  fid : Nat
  duration : Nat
  success : Bool
  errMsg : String
deriving DecidableEq, Repr

def insertByDuration (f : TimedFuture) : List TimedFuture → List TimedFuture
  | [] => [f]
  | g :: rest =>
    if f.duration ≤ g.duration then f :: g :: rest
    else g :: insertByDuration f rest

/-- Completion order of a batch of futures submitted together: ascending
worker duration. -/
def sortByDuration : List TimedFuture → List TimedFuture
  | [] => []
  | f :: rest => insertByDuration f (sortByDuration rest)

structure TimedDrainResult where
  files : List FileRec
  events : List SchedEvent
  raisedTimeout : Bool
deriving DecidableEq, Repr

/-- The drain loop with real timing semantics
(`worker_management.py` lines 425-532).  `as_completed(futures, timeout=
WORKER_TIMEOUT_SECONDS * 2)` yields futures in completion order and raises
`TimeoutError` out of the `for` statement (uncaught there) once the next
completion would arrive later than `2 × 180` s after the call; each yielded
future is already done, so `future.result(timeout=WORKER_TIMEOUT_SECONDS)`
returns its result immediately — the 180 s argument can never fire — and
the result is handled by the ordinary success/failure branches. -/
def drainTimedGo (files : List FileRec) (events : List SchedEvent) :
    List TimedFuture → TimedDrainResult
  | [] => ⟨files, events, false⟩
  | f :: rest =>
    if WORKER_TIMEOUT_SECONDS * 2 < f.duration then
      ⟨files, events, true⟩
    else if f.success then
      drainTimedGo (markFileCompleted files f.fid)
        (SchedEvent.progress "file_completed" :: events) rest
    else
      drainTimedGo (markFileError files f.fid f.errMsg)
        (SchedEvent.progress "file_error" :: events) rest

def drainTimed (files : List FileRec) (fs : List TimedFuture) : TimedDrainResult :=
  drainTimedGo files [] (sortByDuration fs)

/-- What `future.result()` delivers for a completed future: the worker's
returned result dict, or the exception the worker call raised (e.g. a
broken process pool). -/
inductive FutureValue
  | result (success : Bool) (errMsg : String)
  | raised (msg : String)
deriving DecidableEq, Repr

/-- A submitted future: the file id and the wall-clock seconds its worker
runs.  The value it completes with is given by a separate oracle
`Nat → FutureValue`. -/
structure SubmittedFuture where
  fid : Nat
  duration : Nat
deriving DecidableEq, Repr

def insertByCompletion (f : SubmittedFuture) :
    List SubmittedFuture → List SubmittedFuture
  | [] => [f]
  | g :: rest =>
    if f.duration ≤ g.duration then f :: g :: rest
    else g :: insertByCompletion f rest

/-- Completion order of a batch submitted together: ascending duration. -/
def sortByCompletion : List SubmittedFuture → List SubmittedFuture
  | [] => []
  | f :: rest => insertByCompletion f (sortByCompletion rest)

/-- Result of draining one batch under real timing: the updated rows, the
`drained`/`progress` events (most-recent-first), and whether the
`as_completed` iterator raised `TimeoutError` out of the loop. -/
structure TimedBatchResult where
  files : List FileRec
  trace : List SchedEvent
  raisedTimeout : Bool
deriving DecidableEq, Repr

/-- The full drain loop of lines 425-532 under the real `as_completed`
timing, covering worker results and worker exceptions.  Futures are yielded
in completion order; a completion that would arrive later than
`2 × WORKER_TIMEOUT_SECONDS` after the call raises `TimeoutError` at the
`for` statement (outside the `try`), abandoning the remaining futures
undrained.  Every yielded future is already done, so
`future.result(timeout=WORKER_TIMEOUT_SECONDS)` returns at once — in
particular a worker that ran past 180 s but within the batch deadline is
drained through the ordinary branches: success results are marked
`completed` with one `file_completed` event, failure results are marked
`error` with one `file_error` event, and a raised exception emits one
`file_error` event with no store write (lines 521-532). -/
def drainBatchTimedGo (fv : Nat → FutureValue) (files : List FileRec)
    (trace : List SchedEvent) : List SubmittedFuture → TimedBatchResult
  | [] => ⟨files, trace, false⟩
  | f :: rest =>
    if WORKER_TIMEOUT_SECONDS * 2 < f.duration then
      ⟨files, trace, true⟩
    else
      match fv f.fid with
      | .result true _ =>
          drainBatchTimedGo fv (markFileCompleted files f.fid)
            (SchedEvent.progress "file_completed" :: SchedEvent.drained f.fid :: trace) rest
      | .result false m =>
          drainBatchTimedGo fv (markFileError files f.fid m)
            (SchedEvent.progress "file_error" :: SchedEvent.drained f.fid :: trace) rest
      | .raised _ =>
          drainBatchTimedGo fv files
            (SchedEvent.progress "file_error" :: SchedEvent.drained f.fid :: trace) rest

def drainBatchTimed (fv : Nat → FutureValue) (files : List FileRec)
    (futs : List SubmittedFuture) : TimedBatchResult :=
  drainBatchTimedGo fv files [] (sortByCompletion futs)

def isDrainedEvent : SchedEvent → Bool
  | .drained _ => true
  | _ => false

/-- A result dict with `success: True`. -/
def successValue : FutureValue → Bool
  | .result true _ => true
  | _ => false

def isDrainedSuccessT (fv : Nat → FutureValue) : SchedEvent → Bool
  | .drained f => successValue (fv f)
  | _ => false

/-- A drained failure result or a drained worker exception. -/
def isDrainedFailureT (fv : Nat → FutureValue) : SchedEvent → Bool
  | .drained f => !(successValue (fv f))
  | _ => false

/-! ## The analysis service (`analysis_service.py`) -/

/-- `AnalysisState` of `analysis_service.py`. -/
inductive AState
  | idle
  | scanning
  | processing
  | stopping
  | completed
  | error
deriving DecidableEq, Repr

/-- The in-memory fields of `AnalysisService` that the lifecycle operations
read and write; `dbFileExists` stands for `os.path.exists(self._db_path)`. -/
structure ServiceState where
  state : AState
  currentJobId : Option Nat
  stopRequested : Bool
  progressCleared : Bool
  errorMessage : Option String
  startTime : Option Nat
  endTime : Option Nat
  dbFileExists : Bool
deriving DecidableEq, Repr

/-- The `{success, error, state}` dictionary the service operations return. -/
structure ApiResponse where
  success : Bool
  error : Option String
  state : AState
deriving DecidableEq, Repr

/-- `AnalysisService.is_running` (lines 100-102): true exactly in the
`scanning` and `processing` states. -/
def serviceIsRunning (s : ServiceState) : Bool :=
  s.state == .scanning || s.state == .processing

/-- `AnalysisService.start_analysis` (lines 154-189).  `dataPathIsDir` is
`os.path.isdir(self._data_path)`; `now` the current time.  On success the
method resets the stop signal, error message, progress and timing and spawns
the run thread (the spawned thread's effects are not part of the returned
state). -/
def startAnalysis (s : ServiceState) (dataPathIsDir : Bool) (now : Nat) :
    ServiceState × ApiResponse :=
  if serviceIsRunning s then
    (s, { success := false, error := some "Analysis is already running", state := s.state })
  else if !dataPathIsDir then
    (s, { success := false, error := some "Data path does not exist", state := s.state })
  else
    ({ s with
        stopRequested := false
        errorMessage := none
        progressCleared := true
        startTime := some now
        endTime := none },
      { success := true, error := none, state := s.state })

/-- `AnalysisService.stop_analysis` (lines 191-208). -/
def stopAnalysis (s : ServiceState) : ServiceState × ApiResponse :=
  if !serviceIsRunning s then
    (s, { success := false, error := some "No analysis is running", state := s.state })
  else
    ({ s with state := .stopping, stopRequested := true },
      { success := true, error := none, state := .stopping })

/-- `AnalysisService.clear_results` (lines 210-244): refused while running;
otherwise removes the database file if present and resets the in-memory
state to `idle`.  The `os.remove` success path is modeled (the exception
branch is an I/O failure outside the state machine). -/
def clearResults (s : ServiceState) : ServiceState × ApiResponse :=
  if serviceIsRunning s then
    (s, { success := false,
          error := some "Cannot clear results while analysis is running",
          state := s.state })
  else
    ({ state := .idle
       currentJobId := none
       stopRequested := s.stopRequested
       progressCleared := true
       errorMessage := none
       startTime := none
       endTime := none
       dbFileExists := false },
      { success := true, error := none, state := .idle })

/-! ## Concrete scenario runs -/

/-- A job with `n` pending rows, file ids `1..n` in store order. -/
def pendingFilesUpTo (n : Nat) : List FileRec :=
  (List.range n).map fun i => FileRec.mk (i + 1) .pending none

/-- An analyzer that fails 100% of the time (returns `success: False`). -/
def ocAlwaysFail : Nat → Outcome := fun _ => .res false "analyzer failure"

/-- An analyzer failing exactly on files 11..60 (spec scenario 5). -/
def ocFailMiddle : Nat → Outcome := fun f =>
  if 11 ≤ f ∧ f ≤ 60 then .res false "analyzer failure" else .res true ""

/-- Stop signal never raised. -/
def stopNever : Nat → Bool := fun _ => false

/-- Stop signal raised from clock 5 on. -/
def stopFrom5 : Nat → Bool := fun c => decide (5 ≤ c)

/-- The 30 s scaling timer never fires during the run. -/
def scaleNever : Nat → Option Util := fun _ => none

/-- Memory stays low after every batch. -/
def memLow : Nat → ℚ := fun _ => 0

/-- 51 pending files, an always-failing analyzer, batch size 50: batch 1
accumulates 50 consecutive errors and trips the breaker. -/
def breakerRun : SchedSt :=
  processFilesParallel ocAlwaysFail stopNever scaleNever memLow
    (pendingFilesUpTo 51) 16 50 2

/-- 100 pending files, failures exactly on 11..60, batch size 50 (spec
scenario 5). -/
def burstRun : SchedSt :=
  processFilesParallel ocFailMiddle stopNever scaleNever memLow
    (pendingFilesUpTo 100) 16 50 4

/-- One pending file, stop signal raised only from clock 5 on. -/
def gracefulRun : SchedSt :=
  processFilesParallel (fun _ => .res true "") stopFrom5 scaleNever memLow
    (pendingFilesUpTo 1) 16 50 2

/-- The trace invariant of a scheduler run: every batch was started at a
clock where the stop signal was observed unset; every claim belongs to such
a batch and its file is eventually drained; and the progress events balance
the drained outcomes (one `file_completed` per drained success, one
`file_error` per drained failure or worker exception). -/
def GoodTrace (oc : Nat → Outcome) (ss : Nat → Bool) (tr : List SchedEvent) : Prop :=
  (∀ c sz, SchedEvent.batchStart c sz ∈ tr → ss c = false) ∧
  (∀ f c, SchedEvent.claim f c ∈ tr → ss c = false ∧ SchedEvent.drained f ∈ tr) ∧
  tr.countP isCompletedEvent = tr.countP (isDrainedSuccess oc) ∧
  tr.countP isErrorEvent = tr.countP (isDrainedFailure oc)

/-- Every batch recorded in the trace used a batch size of at least
`MIN_BATCH_SIZE`. -/
def BatchSizesOk (tr : List SchedEvent) : Prop :=
  ∀ c sz, SchedEvent.batchStart c sz ∈ tr → MIN_BATCH_SIZE ≤ sz

/-! # Theorems -/

/-! ## C7: initial worker sizing -/

lemma natFloor_mul_ratCast (a : Nat) (b : Nat) (c : Nat) :
    ⌊((a : ℚ)/(b : ℚ)) * (c : Nat)⌋₊ = a * c / b := by
  rw [div_mul_eq_mul_div, show ((a : ℚ)) * c = ((a * c : Nat) : ℚ) by push_cast; ring,
    Nat.floor_div_nat, Nat.floor_natCast]

lemma intFloor_toNat_eq_natFloor (q : ℚ) : (⌊q⌋).toNat = ⌊q⌋₊ := Int.floor_toNat q

/-- C7: the four CPU-range formulas of the spec agree with the code's initial
worker sizing, and the sampler-failure fallback is 16. -/
theorem initial_worker_sizing_matches_spec (c : Nat) (m : ℚ) :
    (96 ≤ c → calculateOptimalWorkersAuto c m = specInitialWorkers c m) ∧
    (32 ≤ c → c < 96 → calculateOptimalWorkersAuto c m = specInitialWorkers c m) ∧
    (8 ≤ c → c < 32 → calculateOptimalWorkersAuto c m = specInitialWorkers c m) ∧
    (c < 8 → calculateOptimalWorkersAuto c m = specInitialWorkers c m) ∧
    calculateOptimalWorkersInit none = 16 ∧
    calculateOptimalWorkersInit (some (c, m)) = calculateOptimalWorkersAuto c m := by
  have h2 : ⌊(1/2 : ℚ) * c⌋₊ = c / 2 := by
    have := natFloor_mul_ratCast 1 2 c
    simpa using this
  have h34 : ⌊(3/4 : ℚ) * c⌋₊ = c * 3 / 4 := by
    have := natFloor_mul_ratCast 3 4 c
    rw [Nat.mul_comm 3 c] at this
    simpa using this
  have h45 : ⌊(4/5 : ℚ) * c⌋₊ = c * 4 / 5 := by
    have := natFloor_mul_ratCast 4 5 c
    rw [Nat.mul_comm 4 c] at this
    simpa using this
  have h910 : ⌊(9/10 : ℚ) * c⌋₊ = c * 9 / 10 := by
    have := natFloor_mul_ratCast 9 10 c
    rw [Nat.mul_comm 9 c] at this
    simpa using this
  have hm7 : (⌊m * (7/10)⌋).toNat = ⌊(7/10 : ℚ) * m⌋₊ := by
    rw [intFloor_toNat_eq_natFloor, mul_comm]
  have hm6 : (⌊m * (3/5)⌋).toNat = ⌊(3/5 : ℚ) * m⌋₊ := by
    rw [intFloor_toNat_eq_natFloor, mul_comm]
  refine ⟨?_, ?_, ?_, ?_, rfl, rfl⟩
  · intro h96
    simp only [calculateOptimalWorkersAuto, specInitialWorkers, if_pos h96, h2, hm7]
  · intro h32 h96
    simp only [calculateOptimalWorkersAuto, specInitialWorkers,
      if_neg (by omega : ¬ 96 ≤ c), if_pos h32, h34, hm6]
  · intro h8 h32
    simp only [calculateOptimalWorkersAuto, specInitialWorkers,
      if_neg (by omega : ¬ 96 ≤ c), if_neg (by omega : ¬ 32 ≤ c), if_pos h8, h45, hm6]
  · intro h8
    simp only [calculateOptimalWorkersAuto, specInitialWorkers,
      if_neg (by omega : ¬ 96 ≤ c), if_neg (by omega : ¬ 32 ≤ c),
      if_neg (by omega : ¬ 8 ≤ c), h910, hm6]

/-- C7 witness: the 96-core case evaluated at `C = 96`, `M = 100` GB. -/
theorem initial_worker_sizing_matches_spec_witness :
    96 ≤ 96 ∧ calculateOptimalWorkersAuto 96 100 = specInitialWorkers 96 100 :=
  ⟨by norm_num, (initial_worker_sizing_matches_spec 96 100).1 (by norm_num)⟩

/-! ## C3: the load-reduction rules -/

/-- C3 counterexample: at 30 workers with load factor 5/2 (critical), the
code reduces by `min(WORKER_EMERGENCY, w//3) = 10` giving 20 workers, not by
the claimed `max(WORKER_EMERGENCY, w/3) = 20` giving 10. -/
theorem load_reduction_claim_false_at_30_workers :
    CRITICAL_LOAD_FACTOR < (Util.mk 0 0 (5/2)).loadFactor ∧
    adjustWorkers 30 (Util.mk 0 0 (5/2)) ≠
      max 8 (30 - max WORKER_EMERGENCY_REDUCTION (30 / 3)) := by
  constructor
  · show (2 : ℚ) < 5/2
    norm_num
  · show adjustWorkers 30 (Util.mk 0 0 (5/2)) ≠ 10
    have : adjustWorkers 30 (Util.mk 0 0 (5/2)) = 20 := by
      unfold adjustWorkers
      rw [if_pos (by norm_num [CRITICAL_LOAD_FACTOR])]
      decide
    omega

/-- C3 amended: the reduction sites subtract `min` (not `max`) of the fixed
step and the proportional share: under critical load (`load_factor > 2`)
workers become `max(8, w − min(20, w/3))` and the batch size becomes
`MIN_BATCH_SIZE`; under high load (`1.5 < load_factor ≤ 2`) workers become
`max(8, w − min(20, w/5))`. -/
theorem load_reduction_rules (st : SchedSt) (u : Util) :
    (CRITICAL_LOAD_FACTOR < u.loadFactor →
      (adaptScaling st u).workers =
          max 8 (st.workers - min WORKER_EMERGENCY_REDUCTION (st.workers / 3)) ∧
      (adaptScaling st u).batchSize = MIN_BATCH_SIZE) ∧
    (u.loadFactor ≤ CRITICAL_LOAD_FACTOR → MAX_LOAD_FACTOR < u.loadFactor →
      (adaptScaling st u).workers =
          max 8 (st.workers - min (2 * WORKER_STEP_SIZE) (st.workers / 5))) := by
  constructor
  · intro hcrit
    have hw : adjustWorkers st.workers u =
        max 8 (st.workers - min WORKER_EMERGENCY_REDUCTION (st.workers / 3)) := by
      unfold adjustWorkers
      rw [if_pos hcrit]
    have hnotlow : ¬ (u.loadFactor < 8/10 ∧ u.cpu < MIN_CPU_UTILIZATION ∧ u.mem < 80) := by
      rintro ⟨h1, -, -⟩
      rw [CRITICAL_LOAD_FACTOR] at hcrit
      linarith
    have hhigh : MAX_LOAD_FACTOR < u.loadFactor ∨ MAX_CPU_UTILIZATION < u.cpu ∨ 90 < u.mem := by
      left
      rw [MAX_LOAD_FACTOR]
      rw [CRITICAL_LOAD_FACTOR] at hcrit
      linarith
    constructor
    · simp only [adaptScaling, hw]
    · simp only [adaptScaling, if_neg hnotlow, if_pos hhigh]
      by_cases hbs : MIN_BATCH_SIZE < st.batchSize
      · rw [if_pos ⟨hcrit, hbs⟩]
        decide
      · rw [if_neg (fun h => hbs h.2)]
        rw [MIN_BATCH_SIZE, BATCH_STEP_SIZE] at *
        omega
  · intro hle hhigh
    have hnotcrit : ¬ CRITICAL_LOAD_FACTOR < u.loadFactor := not_lt.mpr hle
    have hw : adjustWorkers st.workers u =
        max 8 (st.workers - min (WORKER_STEP_SIZE * 2) (st.workers / 5)) := by
      unfold adjustWorkers
      rw [if_neg hnotcrit, if_pos hhigh]
    simp only [adaptScaling, hw, Nat.mul_comm WORKER_STEP_SIZE 2]

/-- C3 witness: the critical branch of the amended rules at 30 workers,
batch 50, load factor 5/2. -/
theorem load_reduction_rules_witness :
    CRITICAL_LOAD_FACTOR < (Util.mk 0 0 (5/2)).loadFactor ∧
    ((adaptScaling (SchedSt.mk [] 50 30 0 0 0 [] "running" none) (Util.mk 0 0 (5/2))).workers =
        max 8 (30 - min WORKER_EMERGENCY_REDUCTION (30 / 3)) ∧
      (adaptScaling (SchedSt.mk [] 50 30 0 0 0 [] "running" none) (Util.mk 0 0 (5/2))).batchSize =
        MIN_BATCH_SIZE) :=
  ⟨by norm_num [CRITICAL_LOAD_FACTOR],
    (load_reduction_rules (SchedSt.mk [] 50 30 0 0 0 [] "running" none) (Util.mk 0 0 (5/2))).1
      (by norm_num [CRITICAL_LOAD_FACTOR])⟩

/-! ## C5: the Start guard -/

/-- C5 counterexample: with the service in the `completed` state and an
existing data path, `start_analysis` succeeds — the guard is `is_running`,
not `state == idle`, so the claimed failure in state `completed` does not
happen. -/
theorem start_succeeds_in_completed_state :
    (startAnalysis
        (ServiceState.mk .completed (some 1) false false none (some 0) (some 5) true)
        true 10).2.success = true := by
  rfl

/-- C5 amended: `start_analysis` succeeds iff the service is not running
(its state is neither `scanning` nor `processing` — `idle`, `stopping`,
`completed` and `error` all pass the guard) and the data path is an existing
directory; every failing call returns `{success: false, error, state}` and
leaves the state unchanged. -/
theorem start_guard_is_not_running (s : ServiceState) (d : Bool) (now : Nat) :
    ((startAnalysis s d now).2.success = true ↔
      (serviceIsRunning s = false ∧ d = true)) ∧
    ((startAnalysis s d now).2.success = false →
      (startAnalysis s d now).1 = s ∧
      (startAnalysis s d now).2.error ≠ none ∧
      (startAnalysis s d now).2.state = s.state) := by
  cases hr : serviceIsRunning s <;> cases d <;>
    simp [startAnalysis, hr]

/-- C5 witness: the amended theorem applied in the `scanning` state, where
the call fails and has no side effects. -/
theorem start_guard_is_not_running_witness :
    (startAnalysis (ServiceState.mk .scanning none false false none none none true)
        true 0).2.success = false ∧
    ((startAnalysis (ServiceState.mk .scanning none false false none none none true)
        true 0).1 = ServiceState.mk .scanning none false false none none none true ∧
      (startAnalysis (ServiceState.mk .scanning none false false none none none true)
        true 0).2.error ≠ none ∧
      (startAnalysis (ServiceState.mk .scanning none false false none none none true)
        true 0).2.state = AState.scanning) := by
  refine ⟨rfl, ?_⟩
  have h := (start_guard_is_not_running
    (ServiceState.mk .scanning none false false none none none true) true 0).2 rfl
  exact h

/-! ## C9: Clear as the recovery path -/

/-- C9: in every non-running state — `idle`, `completed`, `error`, and the
transient `stopping` — `clear_results` succeeds, removes the database file
and resets the in-memory state to `idle` with job id, progress, error
message and timing cleared. -/
theorem clear_succeeds_when_not_running (s : ServiceState)
    (h : s.state = .idle ∨ s.state = .completed ∨ s.state = .error ∨ s.state = .stopping) :
    (clearResults s).2.success = true ∧
    (clearResults s).1 =
      ServiceState.mk .idle none s.stopRequested true none none none false := by
  have hr : serviceIsRunning s = false := by
    rcases h with h | h | h | h <;> simp [serviceIsRunning, h]
  simp [clearResults, hr]

/-- C9 witness: clearing from the terminal `error` state. -/
theorem clear_succeeds_when_not_running_witness :
    ((ServiceState.mk .error (some 3) false false (some "boom") (some 0) (some 9) true).state
        = AState.idle ∨
      (ServiceState.mk .error (some 3) false false (some "boom") (some 0) (some 9) true).state
        = AState.completed ∨
      (ServiceState.mk .error (some 3) false false (some "boom") (some 0) (some 9) true).state
        = AState.error ∨
      (ServiceState.mk .error (some 3) false false (some "boom") (some 0) (some 9) true).state
        = AState.stopping) ∧
    ((clearResults
        (ServiceState.mk .error (some 3) false false (some "boom") (some 0) (some 9) true)).2.success
        = true ∧
      (clearResults
        (ServiceState.mk .error (some 3) false false (some "boom") (some 0) (some 9) true)).1 =
        ServiceState.mk .idle none false true none none none false) :=
  ⟨Or.inr (Or.inr (Or.inl rfl)),
    clear_succeeds_when_not_running
      (ServiceState.mk .error (some 3) false false (some "boom") (some 0) (some 9) true)
      (Or.inr (Or.inr (Or.inl rfl)))⟩

/-! ## C1: circuit breaker final status -/

/-- C1: with an always-failing analyzer the breaker trips (a `circuitTrip` is
in the trace) and the run ends after the first batch (file 51 stays
`pending`), but `process_files_parallel` then persists the job as
`completed` and returns status `completed`, not `interrupted`: both break
paths set `files_remaining = False`, and the final-status branch maps
`not files_remaining` to `completed`. -/
theorem circuit_breaker_reports_completed :
    SchedEvent.circuitTrip ∈ breakerRun.trace ∧
    fileStatus breakerRun.files 51 = some FStatus.pending ∧
    countPending breakerRun.files = 1 ∧
    breakerRun.jobStatus = "completed" ∧
    breakerRun.retStatus = some "completed" := by
  refine ⟨by decide, by decide, by decide, by decide, by decide⟩

/-! ## C2: the per-file timeout -/

/-- C2: a submitted file whose worker runs 200 s (beyond the claimed 180 s
deadline) and returns success is handled as an ordinary success: it is
marked `completed` with no error message and a `file_completed` event, and
no timeout is recorded anywhere — the claimed hard per-item deadline does
not exist in the code. -/
theorem long_worker_not_timed_out :
    drainTimed [FileRec.mk 1 .processing none] [TimedFuture.mk 1 200 true ""] =
      TimedDrainResult.mk [FileRec.mk 1 .completed none]
        [SchedEvent.progress "file_completed"] false := by
  rfl

/-! ## C4: the consecutive-error counter across batches -/

/-- C4 counterexample: in the 100-file run failing on 11..60 the job is not
left `interrupted` with file 61 pending — the counter is re-initialized to
zero at each batch, so neither batch reaches 50 consecutive errors. -/
theorem burst_failures_do_not_interrupt :
    ¬ (burstRun.jobStatus = "interrupted" ∧
        fileStatus burstRun.files 61 = some FStatus.pending) := by
  intro h
  have : burstRun.jobStatus = "completed" := by decide
  rw [h.1] at this
  exact absurd this (by decide)

/-- C4 amended: the consecutive-error counter restarts at each batch
boundary (batch 1 ends at 40 consecutive errors, batch 2 at most 10), so in
spec scenario 5 the breaker never trips, every file reaches a terminal
status — file 61 in particular is `completed`, not `pending` — and the run
ends with status `completed`. -/
theorem burst_failures_run_to_completion :
    SchedEvent.circuitTrip ∉ burstRun.trace ∧
    countPending burstRun.files = 0 ∧
    fileStatus burstRun.files 61 = some FStatus.completed ∧
    burstRun.errors = 50 ∧
    burstRun.processed = 50 ∧
    burstRun.retStatus = some "completed" := by
  refine ⟨by decide, by decide, by decide, by decide, by decide, by decide⟩

/-! ## Trace structure of the drain and submission phases -/

lemma finishRun_trace (b : Bool) (st : SchedSt) : (finishRun b st).trace = st.trace := rfl

lemma finishRun_batchSize (b : Bool) (st : SchedSt) :
    (finishRun b st).batchSize = st.batchSize := rfl

lemma adaptScaling_traceEq (st : SchedSt) (u : Util) :
    (adaptScaling st u).trace = st.trace := rfl

lemma drainOne_trace (oc : Nat → Outcome) (ss : Nat → Bool) (st : DrainSt) (fid : Nat) :
    (drainOne oc ss st fid).trace = drainNewEvents oc st.consecutive fid ++ st.trace := by
  rcases h : oc fid with ⟨b, m⟩ | _ | m
  · cases b
    · by_cases ht : MAX_CONSECUTIVE_ERRORS ≤ st.consecutive + 1
      · simp [drainOne, drainNewEvents, h, ht]
      · simp [drainOne, drainNewEvents, h, ht]
    · simp [drainOne, drainNewEvents, h, MAX_CONSECUTIVE_ERRORS]
  · simp [drainOne, drainNewEvents, h]
  · simp [drainOne, drainNewEvents, h]

lemma drainNewEvents_drained_mem (oc : Nat → Outcome) (k fid : Nat) :
    SchedEvent.drained fid ∈ drainNewEvents oc k fid := by
  rcases h : oc fid with ⟨b, m⟩ | _ | m
  · cases b
    · by_cases ht : MAX_CONSECUTIVE_ERRORS ≤ k + 1 <;>
        simp [drainNewEvents, h, ht]
    · simp [drainNewEvents, h]
  · simp [drainNewEvents, h]
  · simp [drainNewEvents, h]

lemma drainNewEvents_no_submission (oc : Nat → Outcome) (k fid : Nat) :
    ∀ e ∈ drainNewEvents oc k fid, isSubmissionEvent e = false := by
  rcases h : oc fid with ⟨b, m⟩ | _ | m
  · cases b
    · by_cases ht : MAX_CONSECUTIVE_ERRORS ≤ k + 1 <;>
        simp [drainNewEvents, h, ht, isSubmissionEvent]
    · simp [drainNewEvents, h, isSubmissionEvent]
  · simp [drainNewEvents, h, isSubmissionEvent]
  · simp [drainNewEvents, h, isSubmissionEvent]

lemma drainNewEvents_countP_completed (oc : Nat → Outcome) (k fid : Nat) :
    (drainNewEvents oc k fid).countP isCompletedEvent =
      (drainNewEvents oc k fid).countP (isDrainedSuccess oc) := by
  rcases h : oc fid with ⟨b, m⟩ | _ | m
  · cases b
    · by_cases ht : MAX_CONSECUTIVE_ERRORS ≤ k + 1 <;>
        simp [drainNewEvents, h, ht, List.countP_cons, isCompletedEvent,
          isDrainedSuccess, successOutcome]
    · simp [drainNewEvents, h, List.countP_cons, isCompletedEvent,
        isDrainedSuccess, successOutcome]
  · simp [drainNewEvents, h, List.countP_cons, isCompletedEvent,
      isDrainedSuccess, successOutcome]
  · simp [drainNewEvents, h, List.countP_cons, isCompletedEvent,
      isDrainedSuccess, successOutcome]

lemma drainNewEvents_countP_error (oc : Nat → Outcome) (k fid : Nat) :
    (drainNewEvents oc k fid).countP isErrorEvent =
      (drainNewEvents oc k fid).countP (isDrainedFailure oc) := by
  rcases h : oc fid with ⟨b, m⟩ | _ | m
  · cases b
    · by_cases ht : MAX_CONSECUTIVE_ERRORS ≤ k + 1 <;>
        simp [drainNewEvents, h, ht, List.countP_cons, isErrorEvent,
          isDrainedFailure, failureOutcome]
    · simp [drainNewEvents, h, List.countP_cons, isErrorEvent,
        isDrainedFailure, failureOutcome]
  · simp [drainNewEvents, h, List.countP_cons, isErrorEvent,
      isDrainedFailure, failureOutcome]
  · simp [drainNewEvents, h, List.countP_cons, isErrorEvent,
      isDrainedFailure, failureOutcome]

/-- The drain fold prepends a block of events that contains a `drained`
event for every submitted id, contains no submission events, and whose
progress-event counts balance its drained-outcome counts. -/
lemma drainFold_trace (oc : Nat → Outcome) (ss : Nat → Bool) (subs : List Nat) :
    ∀ d0 : DrainSt,
    ∃ new, (subs.foldl (drainOne oc ss) d0).trace = new ++ d0.trace ∧
      (∀ f ∈ subs, SchedEvent.drained f ∈ new) ∧
      (∀ e ∈ new, isSubmissionEvent e = false) ∧
      new.countP isCompletedEvent = new.countP (isDrainedSuccess oc) ∧
      new.countP isErrorEvent = new.countP (isDrainedFailure oc) := by
  induction subs with
  | nil =>
    intro d0
    exact ⟨[], by simp, by simp, by simp, rfl, rfl⟩
  | cons s rest ih =>
    intro d0
    obtain ⟨new2, h2, hdr, hsub, hc, he⟩ := ih (drainOne oc ss d0 s)
    refine ⟨new2 ++ drainNewEvents oc d0.consecutive s, ?_, ?_, ?_, ?_, ?_⟩
    · rw [List.foldl_cons, h2, drainOne_trace, List.append_assoc]
    · intro f hf
      rcases List.mem_cons.mp hf with rfl | hf
      · exact List.mem_append.mpr (Or.inr (drainNewEvents_drained_mem oc d0.consecutive f))
      · exact List.mem_append.mpr (Or.inl (hdr f hf))
    · intro e he'
      rcases List.mem_append.mp he' with hh | hh
      · exact hsub e hh
      · exact drainNewEvents_no_submission oc d0.consecutive s e hh
    · rw [List.countP_append, List.countP_append, hc, drainNewEvents_countP_completed]
    · rw [List.countP_append, List.countP_append, he, drainNewEvents_countP_error]

/-- The submission fold prepends only `claim` events of the current batch
clock, each for a file that ends up in the submitted list, and leaves the
batch size and clock unchanged. -/
lemma submitFold_trace (bc : Nat) (fids : List Nat) :
    ∀ p : SchedSt × List Nat,
    ∃ new, (fids.foldl (submitStep bc) p).1.trace = new ++ p.1.trace ∧
      (∀ e ∈ new, ∃ f, e = SchedEvent.claim f bc ∧ f ∈ (fids.foldl (submitStep bc) p).2) ∧
      (∀ x ∈ p.2, x ∈ (fids.foldl (submitStep bc) p).2) ∧
      (fids.foldl (submitStep bc) p).1.batchSize = p.1.batchSize ∧
      (fids.foldl (submitStep bc) p).1.clock = p.1.clock := by
  induction fids with
  | nil =>
    intro p
    exact ⟨[], by simp, by simp, by simp, rfl, rfl⟩
  | cons f rest ih =>
    intro p
    rw [List.foldl_cons]
    by_cases hcm : canMarkProcessing p.1.files f
    · have hstep : submitStep bc p f =
          ({ p.1 with
              files := markFileProcessing p.1.files f
              trace := SchedEvent.claim f bc :: p.1.trace },
            p.2 ++ [f]) := by
        simp [submitStep, hcm]
      obtain ⟨new2, h2, hcl, hacc, hbs2, hck2⟩ := ih (submitStep bc p f)
      refine ⟨new2 ++ [SchedEvent.claim f bc], ?_, ?_, ?_, ?_, ?_⟩
      · rw [h2, hstep, List.append_assoc, List.singleton_append]
      · intro e he'
        rcases List.mem_append.mp he' with hh | hh
        · exact hcl e hh
        · refine ⟨f, by simpa using hh, ?_⟩
          have : f ∈ (submitStep bc p f).2 := by
            rw [hstep]
            simp
          exact hacc f this
      · intro x hx
        refine hacc x ?_
        rw [hstep]
        simp [hx]
      · rw [hbs2, hstep]
      · rw [hck2, hstep]
    · have hstep : submitStep bc p f = p := by
        simp [submitStep, hcm]
      rw [hstep]
      exact ih p

/-- The trace of one whole batch: a drain block on top of a claim block on
top of the `batchStart` marker, with the properties of its two phases. -/
lemma runBatch_trace (oc : Nat → Outcome) (ss : Nat → Bool) (st2 : SchedSt)
    (bc : Nat) (fids : List Nat) :
    ∃ newD newS,
      (runBatch oc ss st2 bc fids).1.trace =
        newD ++ newS ++ SchedEvent.batchStart bc st2.batchSize :: st2.trace ∧
      (∀ e ∈ newS, ∃ f, e = SchedEvent.claim f bc ∧ SchedEvent.drained f ∈ newD) ∧
      (∀ e ∈ newD, isSubmissionEvent e = false) ∧
      newD.countP isCompletedEvent = newD.countP (isDrainedSuccess oc) ∧
      newD.countP isErrorEvent = newD.countP (isDrainedFailure oc) ∧
      (runBatch oc ss st2 bc fids).1.batchSize = st2.batchSize := by
  obtain ⟨newS, hsTr, hsCl, hsAcc, hsBs, hsCk⟩ :=
    submitFold_trace bc fids
      ({ st2 with trace := SchedEvent.batchStart bc st2.batchSize :: st2.trace }, [])
  obtain ⟨newD, hdTr, hdDr, hdNo, hdC, hdE⟩ :=
    drainFold_trace oc ss
      (fids.foldl (submitStep bc)
        ({ st2 with trace := SchedEvent.batchStart bc st2.batchSize :: st2.trace }, [])).2
      { files := (fids.foldl (submitStep bc)
          ({ st2 with trace := SchedEvent.batchStart bc st2.batchSize :: st2.trace }, [])).1.files,
        consecutive := 0,
        processed := (fids.foldl (submitStep bc)
          ({ st2 with trace := SchedEvent.batchStart bc st2.batchSize :: st2.trace }, [])).1.processed,
        errors := (fids.foldl (submitStep bc)
          ({ st2 with trace := SchedEvent.batchStart bc st2.batchSize :: st2.trace }, [])).1.errors,
        stopRequested := false,
        clock := (fids.foldl (submitStep bc)
          ({ st2 with trace := SchedEvent.batchStart bc st2.batchSize :: st2.trace }, [])).1.clock,
        trace := (fids.foldl (submitStep bc)
          ({ st2 with trace := SchedEvent.batchStart bc st2.batchSize :: st2.trace }, [])).1.trace }
  refine ⟨newD, newS, ?_, ?_, hdNo, hdC, hdE, ?_⟩
  · unfold runBatch submitBatch
    dsimp only
    rw [hdTr]
    dsimp only
    rw [hsTr]
    dsimp only
    rw [List.append_assoc]
  · intro e he
    obtain ⟨f, rfl, hf⟩ := hsCl e he
    exact ⟨f, rfl, hdDr f hf⟩
  · unfold runBatch submitBatch
    dsimp only
    rw [hsBs]

/-- Extending a good trace with one batch's claim and drain blocks keeps it
good. -/
lemma GoodTrace_extend (oc : Nat → Outcome) (ss : Nat → Bool)
    (tr newS newD : List SchedEvent) (bc sz : Nat)
    (hbase : GoodTrace oc ss tr)
    (hstop : ss bc = false)
    (hS : ∀ e ∈ newS, ∃ f, e = SchedEvent.claim f bc ∧ SchedEvent.drained f ∈ newD)
    (hD : ∀ e ∈ newD, isSubmissionEvent e = false)
    (hDc : newD.countP isCompletedEvent = newD.countP (isDrainedSuccess oc))
    (hDe : newD.countP isErrorEvent = newD.countP (isDrainedFailure oc)) :
    GoodTrace oc ss (newD ++ newS ++ SchedEvent.batchStart bc sz :: tr) := by
  obtain ⟨hbB, hbC, hbCc, hbCe⟩ := hbase
  have hSc : ∀ p : SchedEvent → Bool,
      (∀ f c, p (SchedEvent.claim f c) = false) → newS.countP p = 0 := by
    intro p hp
    refine List.countP_eq_zero.mpr ?_
    intro e he
    obtain ⟨f, rfl, -⟩ := hS e he
    simp [hp]
  refine ⟨?_, ?_, ?_, ?_⟩
  · intro c sz' hmem
    rcases List.mem_append.mp hmem with hm | hm
    · rcases List.mem_append.mp hm with hm2 | hm2
      · have := hD _ hm2
        simp [isSubmissionEvent] at this
      · obtain ⟨f, hf, -⟩ := hS _ hm2
        exact absurd hf (by simp)
    · rcases List.mem_cons.mp hm with hm2 | hm2
      · injection hm2 with h1 h2
        rw [h1]
        exact hstop
      · exact hbB c sz' hm2
  · intro f c hmem
    rcases List.mem_append.mp hmem with hm | hm
    · rcases List.mem_append.mp hm with hm2 | hm2
      · have := hD _ hm2
        simp [isSubmissionEvent] at this
      · obtain ⟨g, hg, hdr⟩ := hS _ hm2
        injection hg with h1 h2
        subst h1
        subst h2
        exact ⟨hstop, List.mem_append.mpr (Or.inl (List.mem_append.mpr (Or.inl hdr)))⟩
    · rcases List.mem_cons.mp hm with hm2 | hm2
      · exact absurd hm2 (by simp)
      · obtain ⟨hss, hdr⟩ := hbC f c hm2
        exact ⟨hss, List.mem_append.mpr (Or.inr (List.mem_cons.mpr (Or.inr hdr)))⟩
  · simp only [List.countP_append, List.countP_cons]
    rw [hSc isCompletedEvent (fun f c => rfl), hSc (isDrainedSuccess oc) (fun f c => rfl),
      hbCc, hDc]
    simp [isCompletedEvent, isDrainedSuccess]
  · simp only [List.countP_append, List.countP_cons]
    rw [hSc isErrorEvent (fun f c => rfl), hSc (isDrainedFailure oc) (fun f c => rfl),
      hbCe, hDe]
    simp [isErrorEvent, isDrainedFailure]

/-- Extending a trace with one batch of size at least the minimum keeps all
recorded batch sizes at least the minimum. -/
lemma BatchSizesOk_extend (tr newS newD : List SchedEvent) (bc sz : Nat)
    (hbase : BatchSizesOk tr) (hsz : MIN_BATCH_SIZE ≤ sz)
    (hS : ∀ e ∈ newS, ∃ f, e = SchedEvent.claim f bc ∧ SchedEvent.drained f ∈ newD)
    (hD : ∀ e ∈ newD, isSubmissionEvent e = false) :
    BatchSizesOk (newD ++ newS ++ SchedEvent.batchStart bc sz :: tr) := by
  intro c sz' hmem
  rcases List.mem_append.mp hmem with hm | hm
  · rcases List.mem_append.mp hm with hm2 | hm2
    · have := hD _ hm2
      simp [isSubmissionEvent] at this
    · obtain ⟨f, hf, -⟩ := hS _ hm2
      exact absurd hf (by simp)
  · rcases List.mem_cons.mp hm with hm2 | hm2
    · injection hm2 with h1 h2
      rw [h2]
      exact hsz
    · exact hbase c sz' hm2

/-- The scaling block never lowers the batch size below `MIN_BATCH_SIZE`. -/
lemma adaptScaling_batch_lb (st : SchedSt) (u : Util)
    (h : MIN_BATCH_SIZE ≤ st.batchSize) :
    MIN_BATCH_SIZE ≤ (adaptScaling st u).batchSize := by
  unfold adaptScaling
  dsimp only
  split_ifs <;>
    simp only [MIN_BATCH_SIZE, MAX_BATCH_SIZE, BATCH_STEP_SIZE] at h ⊢ <;>
    omega

/-- The batch loop preserves the good-trace invariant. -/
lemma runLoop_goodTrace (oc : Nat → Outcome) (ss : Nat → Bool)
    (sc : Nat → Option Util) (mem : Nat → ℚ) :
    ∀ (fuel i : Nat) (st : SchedSt), GoodTrace oc ss st.trace →
      GoodTrace oc ss (runLoop oc ss sc mem fuel i st).trace := by
  intro fuel
  induction fuel with
  | zero =>
    intro i st h
    simpa [runLoop] using h
  | succ fuel ih =>
    intro i st h
    rw [runLoop]
    by_cases hstop : ss st.clock = true
    · rw [if_pos hstop]
      exact h
    · rw [if_neg hstop]
      have hstop' : ss st.clock = false := by simpa using hstop
      have hmain : ∀ st2 : SchedSt, st2.trace = st.trace →
          GoodTrace oc ss
            ((if (getPendingFiles st2.files st2.batchSize).isEmpty then finishRun false st2
              else
                let rb := runBatch oc ss st2 st.clock (getPendingFiles st2.files st2.batchSize)
                if rb.2 then finishRun false rb.1
                else
                  let st6 :=
                    if 90 < mem i then
                      { rb.1 with batchSize := max MIN_BATCH_SIZE (rb.1.batchSize / 2) }
                    else rb.1
                  runLoop oc ss sc mem fuel (i + 1) st6)).trace := by
        intro st2 htr
        by_cases hemp : (getPendingFiles st2.files st2.batchSize).isEmpty = true
        · rw [if_pos hemp]
          show GoodTrace oc ss st2.trace
          rw [htr]
          exact h
        · rw [if_neg hemp]
          dsimp only
          obtain ⟨newD, newS, hTr, hS, hD, hDc, hDe, hBs⟩ :=
            runBatch_trace oc ss st2 st.clock (getPendingFiles st2.files st2.batchSize)
          rw [htr] at hTr
          have hGT : GoodTrace oc ss
              (runBatch oc ss st2 st.clock (getPendingFiles st2.files st2.batchSize)).1.trace := by
            rw [hTr]
            exact GoodTrace_extend oc ss st.trace newS newD st.clock st2.batchSize
              h hstop' hS hD hDc hDe
          by_cases hrb :
              (runBatch oc ss st2 st.clock (getPendingFiles st2.files st2.batchSize)).2 = true
          · rw [if_pos hrb]
            exact hGT
          · rw [if_neg hrb]
            by_cases hm : 90 < mem i
            · rw [if_pos hm]
              exact ih (i + 1) _ hGT
            · rw [if_neg hm]
              exact ih (i + 1) _ hGT
      cases hsc : sc i with
      | none => exact hmain { st with clock := st.clock + 1 } rfl
      | some u => exact hmain (adaptScaling { st with clock := st.clock + 1 } u) rfl

/-- The batch loop keeps the batch size, and every batch size it records, at
or above `MIN_BATCH_SIZE`. -/
lemma runLoop_batch_lb (oc : Nat → Outcome) (ss : Nat → Bool)
    (sc : Nat → Option Util) (mem : Nat → ℚ) :
    ∀ (fuel i : Nat) (st : SchedSt),
      MIN_BATCH_SIZE ≤ st.batchSize → BatchSizesOk st.trace →
      MIN_BATCH_SIZE ≤ (runLoop oc ss sc mem fuel i st).batchSize ∧
        BatchSizesOk (runLoop oc ss sc mem fuel i st).trace := by
  intro fuel
  induction fuel with
  | zero =>
    intro i st hb ht
    simpa [runLoop] using ⟨hb, ht⟩
  | succ fuel ih =>
    intro i st hb ht
    rw [runLoop]
    by_cases hstop : ss st.clock = true
    · rw [if_pos hstop]
      exact ⟨hb, ht⟩
    · rw [if_neg hstop]
      have hmain : ∀ st2 : SchedSt, st2.trace = st.trace →
          MIN_BATCH_SIZE ≤ st2.batchSize →
          MIN_BATCH_SIZE ≤
            ((if (getPendingFiles st2.files st2.batchSize).isEmpty then finishRun false st2
              else
                let rb := runBatch oc ss st2 st.clock (getPendingFiles st2.files st2.batchSize)
                if rb.2 then finishRun false rb.1
                else
                  let st6 :=
                    if 90 < mem i then
                      { rb.1 with batchSize := max MIN_BATCH_SIZE (rb.1.batchSize / 2) }
                    else rb.1
                  runLoop oc ss sc mem fuel (i + 1) st6)).batchSize ∧
          BatchSizesOk
            ((if (getPendingFiles st2.files st2.batchSize).isEmpty then finishRun false st2
              else
                let rb := runBatch oc ss st2 st.clock (getPendingFiles st2.files st2.batchSize)
                if rb.2 then finishRun false rb.1
                else
                  let st6 :=
                    if 90 < mem i then
                      { rb.1 with batchSize := max MIN_BATCH_SIZE (rb.1.batchSize / 2) }
                    else rb.1
                  runLoop oc ss sc mem fuel (i + 1) st6)).trace := by
        intro st2 htr hb2
        by_cases hemp : (getPendingFiles st2.files st2.batchSize).isEmpty = true
        · rw [if_pos hemp]
          refine ⟨hb2, ?_⟩
          show BatchSizesOk st2.trace
          rw [htr]
          exact ht
        · rw [if_neg hemp]
          dsimp only
          obtain ⟨newD, newS, hTr, hS, hD, hDc, hDe, hBs⟩ :=
            runBatch_trace oc ss st2 st.clock (getPendingFiles st2.files st2.batchSize)
          rw [htr] at hTr
          have hOk : BatchSizesOk
              (runBatch oc ss st2 st.clock (getPendingFiles st2.files st2.batchSize)).1.trace := by
            rw [hTr]
            exact BatchSizesOk_extend st.trace newS newD st.clock st2.batchSize ht hb2 hS hD
          have hBs2 : MIN_BATCH_SIZE ≤
              (runBatch oc ss st2 st.clock (getPendingFiles st2.files st2.batchSize)).1.batchSize := by
            rw [hBs]
            exact hb2
          by_cases hrb :
              (runBatch oc ss st2 st.clock (getPendingFiles st2.files st2.batchSize)).2 = true
          · rw [if_pos hrb]
            exact ⟨hBs2, hOk⟩
          · rw [if_neg hrb]
            by_cases hm : 90 < mem i
            · rw [if_pos hm]
              exact ih (i + 1) _ (le_max_left _ _) hOk
            · rw [if_neg hm]
              exact ih (i + 1) _ hBs2 hOk
      cases hsc : sc i with
      | none => exact hmain { st with clock := st.clock + 1 } rfl hb
      | some u =>
        exact hmain (adaptScaling { st with clock := st.clock + 1 } u) rfl
          (adaptScaling_batch_lb { st with clock := st.clock + 1 } u hb)

/-! ## C6: graceful drain after the stop signal -/

/-- C6: the stop contract is a graceful drain.  Every batch recorded in the
trace was started at a clock where the stop signal was observed unset, and
every `pending → processing` claim carries the clock of its batch's stop
check — so once the signal is raised (monotone from clock `t` on), no batch
starts at or after `t` and every claim belongs to a batch admitted strictly
before `t`: no claim happens after the draining batch's last submission.
Moreover every claimed file is drained — already-submitted workers are
always awaited (completion, failure or timeout), never abandoned. -/
theorem stop_signal_graceful_drain (oc : Nat → Outcome) (ss : Nat → Bool)
    (sc : Nat → Option Util) (mem : Nat → ℚ)
    (files : List FileRec) (w bs fuel : Nat) :
    (∀ c sz, SchedEvent.batchStart c sz ∈
        (processFilesParallel oc ss sc mem files w bs fuel).trace → ss c = false) ∧
    (∀ f c, SchedEvent.claim f c ∈
        (processFilesParallel oc ss sc mem files w bs fuel).trace →
      ss c = false ∧
        SchedEvent.drained f ∈ (processFilesParallel oc ss sc mem files w bs fuel).trace) ∧
    (∀ t, (∀ a b, a ≤ b → ss a = true → ss b = true) → ss t = true →
      ∀ c sz, SchedEvent.batchStart c sz ∈
        (processFilesParallel oc ss sc mem files w bs fuel).trace → c < t) := by
  have h0 : GoodTrace oc ss ([] : List SchedEvent) := ⟨by simp, by simp, rfl, rfl⟩
  obtain ⟨hB, hC, -, -⟩ := runLoop_goodTrace oc ss sc mem fuel 0
    { files := files, batchSize := bs, workers := w, processed := 0, errors := 0,
      clock := 0, trace := [], jobStatus := "running", retStatus := none } h0
  refine ⟨hB, hC, ?_⟩
  intro t hmono ht c sz hm
  by_contra hlt
  have hle : t ≤ c := by omega
  have := hmono t c hle ht
  rw [hB c sz hm] at this
  exact Bool.false_ne_true this

/-- C6 witness: in a run where the stop signal rises at clock 5, the batch
recorded at clock 0 was admitted with the signal unset. -/
theorem stop_signal_graceful_drain_witness :
    SchedEvent.batchStart 0 50 ∈ gracefulRun.trace ∧ stopFrom5 0 = false :=
  ⟨by decide,
    (stop_signal_graceful_drain (fun _ => .res true "") stopFrom5 scaleNever memLow
        (pendingFilesUpTo 1) 16 50 2).1 0 50 (by decide)⟩

/-! ## C8: progress events per drained file -/

lemma mem_insertByCompletion (a f : SubmittedFuture) (l : List SubmittedFuture) :
    a ∈ insertByCompletion f l ↔ a = f ∨ a ∈ l := by
  induction l with
  | nil => simp [insertByCompletion]
  | cons g rest ih =>
    unfold insertByCompletion
    split
    · simp
    · simp [ih]
      tauto

lemma mem_sortByCompletion (a : SubmittedFuture) (l : List SubmittedFuture) :
    a ∈ sortByCompletion l ↔ a ∈ l := by
  induction l with
  | nil => simp [sortByCompletion]
  | cons f rest ih =>
    simp [sortByCompletion, mem_insertByCompletion, ih]

/-- Each step of the timed drain prepends one `drained` marker and exactly
one matching progress event per handled future; an aborting iterator adds
nothing for the abandoned futures. -/
lemma drainBatchTimedGo_trace (fv : Nat → FutureValue) (fs : List SubmittedFuture) :
    ∀ (files : List FileRec) (tr : List SchedEvent),
    ∃ new, (drainBatchTimedGo fv files tr fs).trace = new ++ tr ∧
      new.countP isProgressEvent = new.countP isDrainedEvent ∧
      new.countP isCompletedEvent = new.countP (isDrainedSuccessT fv) ∧
      new.countP isErrorEvent = new.countP (isDrainedFailureT fv) ∧
      ((drainBatchTimedGo fv files tr fs).raisedTimeout = false →
        ∀ p ∈ fs, SchedEvent.drained p.fid ∈ new) := by
  induction fs with
  | nil =>
    intro files tr
    exact ⟨[], by simp [drainBatchTimedGo], rfl, rfl, rfl, by simp⟩
  | cons f rest ih =>
    intro files tr
    by_cases hd : WORKER_TIMEOUT_SECONDS * 2 < f.duration
    · refine ⟨[], by simp [drainBatchTimedGo, hd], rfl, rfl, rfl, ?_⟩
      intro habort
      have : (drainBatchTimedGo fv files tr (f :: rest)).raisedTimeout = true := by
        simp [drainBatchTimedGo, hd]
      rw [this] at habort
      exact absurd habort (by simp)
    · rcases hv : fv f.fid with ⟨b, m⟩ | m
      · cases b
        · obtain ⟨new2, h2, hp, hc, he, hm⟩ := ih (markFileError files f.fid m)
            (SchedEvent.progress "file_error" :: SchedEvent.drained f.fid :: tr)
          have hgo : drainBatchTimedGo fv files tr (f :: rest) =
              drainBatchTimedGo fv (markFileError files f.fid m)
                (SchedEvent.progress "file_error" :: SchedEvent.drained f.fid :: tr) rest := by
            simp [drainBatchTimedGo, hd, hv]
          refine ⟨new2 ++ [SchedEvent.progress "file_error", SchedEvent.drained f.fid],
            ?_, ?_, ?_, ?_, ?_⟩
          · rw [hgo, h2]
            simp
          · simp only [List.countP_append, List.countP_cons, List.countP_nil,
              isProgressEvent, isDrainedEvent]
            omega
          · simp only [List.countP_append, List.countP_cons, List.countP_nil,
              isCompletedEvent, isDrainedSuccessT, successValue, hv]
            simp
            omega
          · simp only [List.countP_append, List.countP_cons, List.countP_nil,
              isErrorEvent, isDrainedFailureT, successValue, hv]
            simp
            omega
          · intro habort p hp'
            rw [hgo] at habort
            rcases List.mem_cons.mp hp' with rfl | hp''
            · simp
            · exact List.mem_append.mpr (Or.inl (hm habort p hp''))
        · obtain ⟨new2, h2, hp, hc, he, hm⟩ := ih (markFileCompleted files f.fid)
            (SchedEvent.progress "file_completed" :: SchedEvent.drained f.fid :: tr)
          have hgo : drainBatchTimedGo fv files tr (f :: rest) =
              drainBatchTimedGo fv (markFileCompleted files f.fid)
                (SchedEvent.progress "file_completed" :: SchedEvent.drained f.fid :: tr) rest := by
            simp [drainBatchTimedGo, hd, hv]
          refine ⟨new2 ++ [SchedEvent.progress "file_completed", SchedEvent.drained f.fid],
            ?_, ?_, ?_, ?_, ?_⟩
          · rw [hgo, h2]
            simp
          · simp only [List.countP_append, List.countP_cons, List.countP_nil,
              isProgressEvent, isDrainedEvent]
            omega
          · simp only [List.countP_append, List.countP_cons, List.countP_nil,
              isCompletedEvent, isDrainedSuccessT, successValue, hv]
            simp
            omega
          · simp only [List.countP_append, List.countP_cons, List.countP_nil,
              isErrorEvent, isDrainedFailureT, successValue, hv]
            simp
            omega
          · intro habort p hp'
            rw [hgo] at habort
            rcases List.mem_cons.mp hp' with rfl | hp''
            · simp
            · exact List.mem_append.mpr (Or.inl (hm habort p hp''))
      · obtain ⟨new2, h2, hp, hc, he, hm⟩ := ih files
          (SchedEvent.progress "file_error" :: SchedEvent.drained f.fid :: tr)
        have hgo : drainBatchTimedGo fv files tr (f :: rest) =
            drainBatchTimedGo fv files
              (SchedEvent.progress "file_error" :: SchedEvent.drained f.fid :: tr) rest := by
          simp [drainBatchTimedGo, hd, hv]
        refine ⟨new2 ++ [SchedEvent.progress "file_error", SchedEvent.drained f.fid],
          ?_, ?_, ?_, ?_, ?_⟩
        · rw [hgo, h2]
          simp
        · simp only [List.countP_append, List.countP_cons, List.countP_nil,
            isProgressEvent, isDrainedEvent]
          omega
        · simp only [List.countP_append, List.countP_cons, List.countP_nil,
            isCompletedEvent, isDrainedSuccessT, successValue, hv]
          simp
          omega
        · simp only [List.countP_append, List.countP_cons, List.countP_nil,
            isErrorEvent, isDrainedFailureT, successValue, hv]
          simp
          omega
        · intro habort p hp'
          rw [hgo] at habort
          rcases List.mem_cons.mp hp' with rfl | hp''
          · simp
          · exact List.mem_append.mpr (Or.inl (hm habort p hp''))

/-- C8: under the real `as_completed` timing, every file drained in a batch
— whether its worker returned a success result, a failure result, or raised
an exception, and regardless of how long it ran within the batch deadline —
emits exactly one progress event: the progress events are in bijection with
the `drained` markers, `file_completed` events match the drained successes
and `file_error` events the drained failures and exceptions; and whenever
the drain does not abort, every submitted future is drained.  (No drained
file is ever a timeout: a worker past 180 s is drained as its ordinary
result, and one past the 2×180 s batch deadline aborts the loop undrained.) -/
theorem drained_files_emit_exactly_one_event (fv : Nat → FutureValue)
    (files : List FileRec) (futs : List SubmittedFuture) :
    (drainBatchTimed fv files futs).trace.countP isProgressEvent =
      (drainBatchTimed fv files futs).trace.countP isDrainedEvent ∧
    (drainBatchTimed fv files futs).trace.countP isCompletedEvent =
      (drainBatchTimed fv files futs).trace.countP (isDrainedSuccessT fv) ∧
    (drainBatchTimed fv files futs).trace.countP isErrorEvent =
      (drainBatchTimed fv files futs).trace.countP (isDrainedFailureT fv) ∧
    ((drainBatchTimed fv files futs).raisedTimeout = false →
      ∀ p ∈ futs, SchedEvent.drained p.fid ∈ (drainBatchTimed fv files futs).trace) := by
  obtain ⟨new, hTr, hp, hc, he, hm⟩ :=
    drainBatchTimedGo_trace fv (sortByCompletion futs) files []
  rw [List.append_nil] at hTr
  unfold drainBatchTimed
  rw [hTr]
  refine ⟨hp, hc, he, ?_⟩
  intro habort p hp'
  exact hm habort p ((mem_sortByCompletion p futs).mpr hp')

/-- C8 witness: a single submitted future running 200 s with a successful
result does not abort the drain, and its file is drained (with, by the
theorem's counts, exactly one progress event). -/
theorem drained_files_emit_exactly_one_event_witness :
    (drainBatchTimed (fun _ => FutureValue.result true "")
        [FileRec.mk 1 .processing none] [SubmittedFuture.mk 1 200]).raisedTimeout = false ∧
    SchedEvent.drained 1 ∈ (drainBatchTimed (fun _ => FutureValue.result true "")
        [FileRec.mk 1 .processing none] [SubmittedFuture.mk 1 200]).trace :=
  ⟨by decide,
    (drained_files_emit_exactly_one_event (fun _ => FutureValue.result true "")
        [FileRec.mk 1 .processing none] [SubmittedFuture.mk 1 200]).2.2.2
      (by decide) (SubmittedFuture.mk 1 200) (by decide)⟩

/-! ## C10: the batch-size lower bound -/

/-- C10: a run started with batch size at least `MIN_BATCH_SIZE = 20` never
works with a smaller one: the final batch size and the size recorded at
every batch start stay at or above 20, and each reduction site — the
scaling block (critical-load clamp and step decrease) and the post-batch
memory-pressure halving `max MIN_BATCH_SIZE (b / 2)` — lower-bounds its
result by `MIN_BATCH_SIZE`. -/
theorem batch_size_never_below_minimum (oc : Nat → Outcome) (ss : Nat → Bool)
    (sc : Nat → Option Util) (mem : Nat → ℚ)
    (files : List FileRec) (w bs fuel : Nat) (h : MIN_BATCH_SIZE ≤ bs) :
    MIN_BATCH_SIZE ≤ (processFilesParallel oc ss sc mem files w bs fuel).batchSize ∧
    (∀ c sz, SchedEvent.batchStart c sz ∈
        (processFilesParallel oc ss sc mem files w bs fuel).trace → MIN_BATCH_SIZE ≤ sz) ∧
    (∀ st u, MIN_BATCH_SIZE ≤ st.batchSize →
      MIN_BATCH_SIZE ≤ (adaptScaling st u).batchSize) ∧
    (∀ b : Nat, MIN_BATCH_SIZE ≤ max MIN_BATCH_SIZE (b / 2)) := by
  have hrun := runLoop_batch_lb oc ss sc mem fuel 0
    { files := files, batchSize := bs, workers := w, processed := 0, errors := 0,
      clock := 0, trace := [], jobStatus := "running", retStatus := none }
    h (by intro c sz hm; simp at hm)
  exact ⟨hrun.1, hrun.2, fun st u => adaptScaling_batch_lb st u, fun b => le_max_left _ _⟩

/-- C10 witness: the breaker scenario run, started at batch size 50, ends
with batch size at least 20. -/
theorem batch_size_never_below_minimum_witness :
    MIN_BATCH_SIZE ≤ 50 ∧
    MIN_BATCH_SIZE ≤ (processFilesParallel ocAlwaysFail stopNever scaleNever memLow
      (pendingFilesUpTo 51) 16 50 2).batchSize :=
  ⟨by decide,
    (batch_size_never_below_minimum ocAlwaysFail stopNever scaleNever memLow
      (pendingFilesUpTo 51) 16 50 2 (by decide)).1⟩

end PII
